import Mathlib

/-!
Verification development for the keyboard-command dispatch layer of the
tracing-framework repository (`src/wtf/events/keyboard.js`).

The source file defines `wtf.events.Keyboard` (a shortcut registry built on
`wtf.events.EventEmitter`), `wtf.events.KeyboardScope` (a disposable batch
handle), and `wtf.events.Keyboard.getWindowKeyboard` (a per-window cache).
Shortcut descriptors are strings; we embed them as `List Char` so that the
JavaScript `split('|')` operation can be reasoned about directly.

The `wtf.events.EventEmitter` base class (`addListener`, `removeListener`,
`hasListeners`, `emitEvent`) and the host key-capture collaborator
(`goog.ui.KeyboardShortcutHandler`) are not among the given source files;
their definitions below are modelled from the specification and are marked
as such in their doc comments.

Callback functions and scope objects are identified by their JavaScript
object identity; we embed callback identity as `Nat` and scope identity as
`Option Nat` (`none` standing for an omitted `opt_scope`).
-/

namespace wtf.events

/-- A shortcut descriptor string, embedded as its list of characters. -/
abbrev Str := List Char

/-- The JavaScript `shortcut.split('|')` operation on descriptor strings:
splitting on every pipe character, keeping empty segments, and producing
`[""]` for the empty string. -/
def splitOnPipe : Str → List Str
  | [] => [[]]
  | c :: rest =>
    match splitOnPipe rest with
    | [] => [[]]
    | seg :: segs => if c = '|' then [] :: seg :: segs else (c :: seg) :: segs

/-- Joining descriptor segments with the pipe separator, the inverse of
`splitOnPipe` on pipe-free segments. -/
def joinPipe : List Str → Str
  | [] => []
  | [d] => d
  | d :: rest => d ++ '|' :: joinPipe rest

/-- A listener entry as stored in the registry: the (callback, scope) pair of
a registration, compared by identity. -/
structure Listener where
  callback : Nat
  scope : Option Nat
deriving DecidableEq, Repr

/-- A call made to the host key-capture collaborator
(`goog.ui.KeyboardShortcutHandler`). -/
inductive HostCall where
  | register (descriptor : Str)
  | unregister (descriptor : Str)
deriving DecidableEq, Repr

/-- The state of a `wtf.events.Keyboard`: the per-descriptor listener sets of
the underlying event emitter, and which descriptors are currently registered
with the host key-capture collaborator. -/
structure Keyboard where
  bindings : Str → List Listener
  hostRegs : Str → Bool

/-- A freshly constructed `wtf.events.Keyboard`: no listeners, no host
registrations. -/
def Keyboard.initial : Keyboard := ⟨fun _ => [], fun _ => false⟩

/-- Modelled from the spec: `wtf.events.EventEmitter.hasListeners` (the
EventEmitter base class is not among the given source files). A descriptor
has listeners exactly when its listener set is non-empty. -/
def Keyboard.hasListeners (k : Keyboard) (d : Str) : Bool :=
  !(k.bindings d).isEmpty

/-- Modelled from the spec: `wtf.events.EventEmitter.addListener` appends the
(callback, scope) pair to the descriptor's listener set; a duplicate add is
stored as a second entry. -/
def Keyboard.addListener (k : Keyboard) (d : Str) (callback : Nat)
    (scope : Option Nat) : Keyboard :=
  { k with bindings :=
      Function.update k.bindings d (k.bindings d ++ [⟨callback, scope⟩]) }

/-- Modelled from the spec: `wtf.events.EventEmitter.removeListener` removes
the entry matching the (callback, scope) pair by identity; removing an
absent entry is a no-op. -/
def Keyboard.removeListener (k : Keyboard) (d : Str) (callback : Nat)
    (scope : Option Nat) : Keyboard :=
  { k with bindings :=
      Function.update k.bindings d ((k.bindings d).erase ⟨callback, scope⟩) }

/-- Modelled from the spec: the host key-capture collaborator's
`registerShortcut` begins intercepting the descriptor (set semantics on the
host's active registrations). -/
def Keyboard.registerShortcut (k : Keyboard) (d : Str) : Keyboard :=
  { k with hostRegs := Function.update k.hostRegs d true }

/-- Modelled from the spec: the host key-capture collaborator's
`unregisterShortcut` stops intercepting the descriptor; unregistering a
descriptor that is not registered leaves the host state unchanged. -/
def Keyboard.unregisterShortcut (k : Keyboard) (d : Str) : Keyboard :=
  { k with hostRegs := Function.update k.hostRegs d false }

/-- One iteration of the loop body of `wtf.events.Keyboard.prototype.addShortcut`
for a single already-split descriptor: if the descriptor has no listeners it
is first registered with the host key handler, then the listener is added.
Also returns the host calls issued. -/
def Keyboard.addShortcutSeg (k : Keyboard) (shortcut : Str) (callback : Nat)
    (scope : Option Nat) : Keyboard × List HostCall :=
  if k.hasListeners shortcut then
    (k.addListener shortcut callback scope, [])
  else
    ((k.registerShortcut shortcut).addListener shortcut callback scope,
      [HostCall.register shortcut])

/-- The loop of `addShortcut` over the split descriptor list. -/
def Keyboard.addShortcutLoop :
    Keyboard → List Str → Nat → Option Nat → Keyboard × List HostCall
  | k, [], _, _ => (k, [])
  | k, s :: rest, callback, scope =>
    let r := k.addShortcutSeg s callback scope
    let r2 := Keyboard.addShortcutLoop r.1 rest callback scope
    (r2.1, r.2 ++ r2.2)

/-- `wtf.events.Keyboard.prototype.addShortcut`, instrumented with the list
of host calls it issues: splits the shortcut string on the pipe separator
and processes each segment in order. -/
def Keyboard.addShortcutLog (k : Keyboard) (shortcut : Str) (callback : Nat)
    (scope : Option Nat) : Keyboard × List HostCall :=
  k.addShortcutLoop (splitOnPipe shortcut) callback scope

/-- `wtf.events.Keyboard.prototype.addShortcut` (resulting registry state). -/
def Keyboard.addShortcut (k : Keyboard) (shortcut : Str) (callback : Nat)
    (scope : Option Nat) : Keyboard :=
  (k.addShortcutLog shortcut callback scope).1

/-- One iteration of the loop body of
`wtf.events.Keyboard.prototype.removeShortcut` for a single already-split
descriptor: the listener is removed, and if the descriptor then has no
listeners it is unregistered from the host key handler. Also returns the
host calls issued. -/
def Keyboard.removeShortcutSeg (k : Keyboard) (shortcut : Str) (callback : Nat)
    (scope : Option Nat) : Keyboard × List HostCall :=
  let k2 := k.removeListener shortcut callback scope
  if k2.hasListeners shortcut then
    (k2, [])
  else
    (k2.unregisterShortcut shortcut, [HostCall.unregister shortcut])

/-- The loop of `removeShortcut` over the split descriptor list. -/
def Keyboard.removeShortcutLoop :
    Keyboard → List Str → Nat → Option Nat → Keyboard × List HostCall
  | k, [], _, _ => (k, [])
  | k, s :: rest, callback, scope =>
    let r := k.removeShortcutSeg s callback scope
    let r2 := Keyboard.removeShortcutLoop r.1 rest callback scope
    (r2.1, r.2 ++ r2.2)

/-- `wtf.events.Keyboard.prototype.removeShortcut`, instrumented with the
list of host calls it issues. -/
def Keyboard.removeShortcutLog (k : Keyboard) (shortcut : Str) (callback : Nat)
    (scope : Option Nat) : Keyboard × List HostCall :=
  k.removeShortcutLoop (splitOnPipe shortcut) callback scope

/-- `wtf.events.Keyboard.prototype.removeShortcut` (resulting registry
state). -/
def Keyboard.removeShortcut (k : Keyboard) (shortcut : Str) (callback : Nat)
    (scope : Option Nat) : Keyboard :=
  (k.removeShortcutLog shortcut callback scope).1

/-- Modelled from the spec: the fan-out step of
`wtf.events.EventEmitter.emitEvent`. Each listener of the snapshot is
invoked once, in registration order; a listener whose callback throws
(according to the `throws` oracle on callback identities) has its exception
caught and recorded, and delivery continues with the remaining listeners.
Returns the invoked listeners in invocation order, and the listeners whose
exceptions were caught. -/
def fanOut (throws : Nat → Bool) : List Listener → List Listener × List Listener
  | [] => ([], [])
  | l :: rest =>
    let r := fanOut throws rest
    (l :: r.1, if throws l.callback then l :: r.2 else r.2)

/-- Modelled from the spec: `wtf.events.EventEmitter.emitEvent` emits the
single event with the given name and fans out to the listeners bound to
that name. Returns the names of the events emitted, the listeners invoked
(in order), and the listeners whose exceptions were caught. -/
def Keyboard.emitEvent (k : Keyboard) (name : Str) (throws : Nat → Bool) :
    List Str × List Listener × List Listener :=
  ([name], fanOut throws (k.bindings name))

/-- `wtf.events.Keyboard.prototype.keyPressed_`: on a key press event the
registry emits one event named by the event's shortcut identifier. -/
def Keyboard.keyPressed (k : Keyboard) (identifier : Str)
    (throws : Nat → Bool) : List Str × List Listener × List Listener :=
  k.emitEvent identifier throws

/-- A registry mutation, for stating invariants over call sequences. -/
inductive KeyboardOp where
  | add (shortcut : Str) (callback : Nat) (scope : Option Nat)
  | remove (shortcut : Str) (callback : Nat) (scope : Option Nat)

/-- Apply a registry mutation. -/
def Keyboard.applyOp (k : Keyboard) : KeyboardOp → Keyboard
  | .add s callback scope => k.addShortcut s callback scope
  | .remove s callback scope => k.removeShortcut s callback scope

/-- Run a sequence of `addShortcut` / `removeShortcut` calls from a fresh
registry. -/
def Keyboard.run (ops : List KeyboardOp) : Keyboard :=
  ops.foldl Keyboard.applyOp Keyboard.initial

/-- Invariant I1 of the spec: a descriptor has an active host-level
key-capture registration exactly when its listener set is non-empty. -/
def KeyboardInv (k : Keyboard) : Prop :=
  ∀ d, k.hostRegs d = true ↔ k.bindings d ≠ []

/-- The state of a `wtf.events.KeyboardScope`: the list of
[shortcut, callback, scope] tuples this scope personally added, in order. -/
structure KeyboardScope where
  listeners : List (Str × Nat × Option Nat)
deriving DecidableEq, Repr

/-- A freshly constructed `wtf.events.KeyboardScope` over its keyboard. -/
def KeyboardScope.initial : KeyboardScope := ⟨[]⟩

/-- `wtf.events.KeyboardScope.prototype.addShortcut`: records the tuple in
the scope's own list and forwards to the keyboard's `addShortcut`. The pair
carries the keyboard alongside the scope record. -/
def KeyboardScope.addShortcut (st : Keyboard × KeyboardScope) (shortcut : Str)
    (callback : Nat) (scope : Option Nat) : Keyboard × KeyboardScope :=
  (st.1.addShortcut shortcut callback scope,
    ⟨st.2.listeners ++ [(shortcut, callback, scope)]⟩)

/-- `wtf.events.KeyboardScope.prototype.disposeInternal`: calls the
keyboard's `removeShortcut` for every recorded tuple, in order. -/
def KeyboardScope.disposeInternal (st : Keyboard × KeyboardScope) : Keyboard :=
  st.2.listeners.foldl (fun k t => k.removeShortcut t.1 t.2.1 t.2.2) st.1

/-- Run a list of scope-mediated `addShortcut` calls. -/
def KeyboardScope.runAdds (st : Keyboard × KeyboardScope)
    (ts : List (Str × Nat × Option Nat)) : Keyboard × KeyboardScope :=
  ts.foldl (fun st t => KeyboardScope.addShortcut st t.1 t.2.1 t.2.2) st

/-- Total listener-count contribution of a list of scope-recorded
[shortcut, callback, scope] tuples to the listener set of descriptor `e`,
counted at listener value `v`. -/
def addedCount (ts : List (Str × Nat × Option Nat)) (e : Str) (v : Listener) :
    Nat :=
  (ts.map (fun t =>
    if v = ⟨t.2.1, t.2.2⟩ then (splitOnPipe t.1).count e else 0)).sum

/-- Modelled from the spec: a host register call that may raise a
descriptor-format error. The `malformed` oracle says which descriptor
strings the host rejects; the error value carries the offending descriptor
unchanged. -/
def Keyboard.registerShortcutE (malformed : Str → Bool) (k : Keyboard)
    (d : Str) : Except Str Keyboard :=
  if malformed d then .error d else .ok (k.registerShortcut d)

/-- One iteration of the `addShortcut` loop body against the fallible host:
identical to `addShortcutSeg` except that a host descriptor-format error
aborts the iteration and propagates. -/
def Keyboard.addShortcutSegE (malformed : Str → Bool) (k : Keyboard)
    (shortcut : Str) (callback : Nat) (scope : Option Nat) :
    Except Str Keyboard :=
  if k.hasListeners shortcut then
    .ok (k.addListener shortcut callback scope)
  else
    match k.registerShortcutE malformed shortcut with
    | .error e => .error e
    | .ok k2 => .ok (k2.addListener shortcut callback scope)

/-- The `addShortcut` loop against the fallible host: a host error stops the
loop and propagates to the caller. -/
def Keyboard.addShortcutLoopE (malformed : Str → Bool) :
    Keyboard → List Str → Nat → Option Nat → Except Str Keyboard
  | k, [], _, _ => .ok k
  | k, s :: rest, callback, scope =>
    match k.addShortcutSegE malformed s callback scope with
    | .error e => .error e
    | .ok k2 => Keyboard.addShortcutLoopE malformed k2 rest callback scope

/-- `wtf.events.Keyboard.prototype.addShortcut` against the fallible host:
the split segments are processed in order and any host descriptor-format
error propagates to the caller unchanged. -/
def Keyboard.addShortcutE (malformed : Str → Bool) (k : Keyboard)
    (shortcut : Str) (callback : Nat) (scope : Option Nat) :
    Except Str Keyboard :=
  Keyboard.addShortcutLoopE malformed k (splitOnPipe shortcut) callback scope

/-- The identity key of the host global window, `goog.getUid(goog.global)`;
windows are embedded as their `goog.getUid` values. -/
def globalWindowUid : Nat := 0

/-- Association lookup in the instance cache, the JavaScript property access
`keyboardInstances_[uid]`. -/
def assocFind : List (Nat × Nat) → Nat → Option Nat
  | [], _ => none
  | p :: rest, w => if p.1 = w then some p.2 else assocFind rest w

/-- The state of `wtf.events.Keyboard.keyboardInstances_` together with the
allocator of fresh keyboard object identities: a map from window uid to the
identity of the cached keyboard instance. -/
structure KeyboardDirectory where
  keyboardInstances : List (Nat × Nat)
  nextUid : Nat
deriving DecidableEq, Repr

/-- The empty instance cache present at program start. -/
def KeyboardDirectory.empty : KeyboardDirectory := ⟨[], 0⟩

/-- `wtf.events.Keyboard.getWindowKeyboard`: resolves the target window
(defaulting to the host global window), looks up the cached keyboard for its
uid, and constructs and caches a fresh instance on a miss. Returns the
updated cache and the identity of the returned keyboard instance. -/
def getWindowKeyboard (dir : KeyboardDirectory) (optWindow : Option Nat) :
    KeyboardDirectory × Nat :=
  let targetWindow := optWindow.getD globalWindowUid
  match assocFind dir.keyboardInstances targetWindow with
  | some keyboard => (dir, keyboard)
  | none =>
    (⟨dir.keyboardInstances ++ [(targetWindow, dir.nextUid)], dir.nextUid + 1⟩,
      dir.nextUid)

/-- Well-formedness of the instance cache: every cached identity was
allocated, window keys are not repeated, and distinct entries hold distinct
instance identities. -/
def DirectoryInv (dir : KeyboardDirectory) : Prop :=
  (∀ p ∈ dir.keyboardInstances, p.2 < dir.nextUid) ∧
    (dir.keyboardInstances.map Prod.fst).Nodup ∧
    (dir.keyboardInstances.map Prod.snd).Nodup

/-! Basic lemmas about descriptor splitting. -/

theorem splitOnPipe_ne_nil (s : Str) : splitOnPipe s ≠ [] := by
  induction s with
  | nil => simp [splitOnPipe]
  | cons c rest ih =>
    cases h : splitOnPipe rest with
    | nil => simp [splitOnPipe, h]
    | cons seg segs =>
      by_cases hc : c = '|' <;> simp [splitOnPipe, h, hc]

theorem splitOnPipe_no_pipe {s : Str} (h : '|' ∉ s) : splitOnPipe s = [s] := by
  induction s with
  | nil => rfl
  | cons c rest ih =>
    have hc : c ≠ '|' := fun hc => h (hc ▸ List.mem_cons_self c rest)
    have hrest : '|' ∉ rest := fun hr => h (List.mem_cons_of_mem c hr)
    simp [splitOnPipe, ih hrest, hc]

theorem splitOnPipe_append {d : Str} (s : Str) {seg : Str} {segs : List Str}
    (hd : '|' ∉ d) (hs : splitOnPipe s = seg :: segs) :
    splitOnPipe (d ++ s) = (d ++ seg) :: segs := by
  induction d with
  | nil => simpa using hs
  | cons c d' ih =>
    have hc : c ≠ '|' := fun hc => hd (hc ▸ List.mem_cons_self c d')
    have hd' : '|' ∉ d' := fun hr => hd (List.mem_cons_of_mem c hr)
    simp [splitOnPipe, ih hd', hc]

theorem splitOnPipe_joinPipe {ds : List Str} (h1 : ds ≠ [])
    (h2 : ∀ d ∈ ds, '|' ∉ d) : splitOnPipe (joinPipe ds) = ds := by
  induction ds with
  | nil => exact absurd rfl h1
  | cons d rest ih =>
    cases rest with
    | nil => exact splitOnPipe_no_pipe (h2 d (List.mem_cons_self d []))
    | cons r rs =>
      have hrest : splitOnPipe (joinPipe (r :: rs)) = r :: rs :=
        ih (by simp) (fun x hx => h2 x (List.mem_cons_of_mem d hx))
      have hpipe : splitOnPipe ('|' :: joinPipe (r :: rs)) = [] :: r :: rs := by
        simp [splitOnPipe, hrest]
      have hd : '|' ∉ d := h2 d (List.mem_cons_self d (r :: rs))
      have := splitOnPipe_append ('|' :: joinPipe (r :: rs)) hd hpipe
      simpa [joinPipe] using this

/-! Pointwise state lemmas for the shortcut operations. -/

theorem hasListeners_iff (k : Keyboard) (d : Str) :
    k.hasListeners d = true ↔ k.bindings d ≠ [] := by
  simp [Keyboard.hasListeners]

theorem bindings_addListener (k : Keyboard) (d : Str) (callback : Nat)
    (scope : Option Nat) (e : Str) :
    (k.addListener d callback scope).bindings e =
      if e = d then k.bindings e ++ [⟨callback, scope⟩] else k.bindings e := by
  unfold Keyboard.addListener
  by_cases h : e = d
  · subst h; simp
  · simp [h, Function.update_noteq h]

theorem bindings_removeListener (k : Keyboard) (d : Str) (callback : Nat)
    (scope : Option Nat) (e : Str) :
    (k.removeListener d callback scope).bindings e =
      if e = d then (k.bindings e).erase ⟨callback, scope⟩
      else k.bindings e := by
  unfold Keyboard.removeListener
  by_cases h : e = d
  · subst h; simp
  · simp [h, Function.update_noteq h]

theorem hostRegs_registerShortcut (k : Keyboard) (d : Str) (e : Str) :
    (k.registerShortcut d).hostRegs e = if e = d then true else k.hostRegs e := by
  unfold Keyboard.registerShortcut
  by_cases h : e = d
  · subst h; simp
  · simp [h, Function.update_noteq h]

theorem hostRegs_unregisterShortcut (k : Keyboard) (d : Str) (e : Str) :
    (k.unregisterShortcut d).hostRegs e =
      if e = d then false else k.hostRegs e := by
  unfold Keyboard.unregisterShortcut
  by_cases h : e = d
  · subst h; simp
  · simp [h, Function.update_noteq h]

theorem bindings_addShortcutSeg (k : Keyboard) (s : Str) (callback : Nat)
    (scope : Option Nat) (e : Str) :
    ((k.addShortcutSeg s callback scope).1).bindings e =
      if e = s then k.bindings e ++ [⟨callback, scope⟩] else k.bindings e := by
  unfold Keyboard.addShortcutSeg
  by_cases hl : k.hasListeners s = true
  · simp only [hl, if_true]
    exact bindings_addListener k s callback scope e
  · simp only [hl, if_false, Bool.false_eq_true]
    exact bindings_addListener (k.registerShortcut s) s callback scope e

theorem hostRegs_addShortcutSeg (k : Keyboard) (s : Str) (callback : Nat)
    (scope : Option Nat) (e : Str) :
    ((k.addShortcutSeg s callback scope).1).hostRegs e =
      if e = s ∧ k.bindings s = [] then true else k.hostRegs e := by
  unfold Keyboard.addShortcutSeg
  by_cases hl : k.hasListeners s = true
  · have hne : k.bindings s ≠ [] := (hasListeners_iff k s).mp hl
    simp [hl, hne, Keyboard.addListener]
  · have hemp : k.bindings s = [] := by
      by_contra h2
      exact hl ((hasListeners_iff k s).mpr h2)
    have : ((k.registerShortcut s).addListener s callback scope).hostRegs e =
        (k.registerShortcut s).hostRegs e := rfl
    simp only [hl, if_false, Bool.false_eq_true, this,
      hostRegs_registerShortcut, hemp, and_true]

theorem bindings_removeShortcutSeg (k : Keyboard) (s : Str) (callback : Nat)
    (scope : Option Nat) (e : Str) :
    ((k.removeShortcutSeg s callback scope).1).bindings e =
      if e = s then (k.bindings e).erase ⟨callback, scope⟩ else k.bindings e := by
  unfold Keyboard.removeShortcutSeg
  by_cases hl : (k.removeListener s callback scope).hasListeners s = true
  · simp only [hl, if_true]
    exact bindings_removeListener k s callback scope e
  · simp only [hl, if_false, Bool.false_eq_true]
    have : ((k.removeListener s callback scope).unregisterShortcut s).bindings e =
        (k.removeListener s callback scope).bindings e := rfl
    rw [this]
    exact bindings_removeListener k s callback scope e

theorem hostRegs_removeShortcutSeg (k : Keyboard) (s : Str) (callback : Nat)
    (scope : Option Nat) (e : Str) :
    ((k.removeShortcutSeg s callback scope).1).hostRegs e =
      if e = s ∧ (k.bindings s).erase ⟨callback, scope⟩ = [] then false
      else k.hostRegs e := by
  unfold Keyboard.removeShortcutSeg
  have hb : (k.removeListener s callback scope).bindings s =
      (k.bindings s).erase ⟨callback, scope⟩ := by
    rw [bindings_removeListener]; simp
  by_cases hl : (k.removeListener s callback scope).hasListeners s = true
  · have hne : (k.bindings s).erase ⟨callback, scope⟩ ≠ [] := by
      rw [← hb]; exact (hasListeners_iff _ s).mp hl
    have hrl : (k.removeListener s callback scope).hostRegs = k.hostRegs := rfl
    simp only [hl, if_true, hrl]
    simp [hne]
  · have hemp : (k.bindings s).erase ⟨callback, scope⟩ = [] := by
      by_contra h2
      rw [← hb] at h2
      exact hl ((hasListeners_iff _ s).mpr h2)
    have hrl : (k.removeListener s callback scope).hostRegs = k.hostRegs := rfl
    simp only [hl, if_false, Bool.false_eq_true, hostRegs_unregisterShortcut,
      hrl, hemp, and_true]

/-! Listener-count characterizations of the shortcut operations. -/

theorem count_bindings_addShortcutLoop (segs : List Str) (k : Keyboard)
    (callback : Nat) (scope : Option Nat) (e : Str) (v : Listener) :
    (((Keyboard.addShortcutLoop k segs callback scope).1).bindings e).count v =
      (k.bindings e).count v +
        (if v = ⟨callback, scope⟩ then segs.count e else 0) := by
  induction segs generalizing k with
  | nil => simp [Keyboard.addShortcutLoop]
  | cons s rest ih =>
    simp only [Keyboard.addShortcutLoop]
    rw [ih, bindings_addShortcutSeg]
    by_cases he : e = s <;>
      by_cases hv : v = (⟨callback, scope⟩ : Listener) <;>
        simp [he, hv, List.count_append, List.count_cons,
          List.count_singleton'] <;> omega

theorem count_bindings_removeShortcutLoop (segs : List Str) (k : Keyboard)
    (callback : Nat) (scope : Option Nat) (e : Str) (v : Listener) :
    (((Keyboard.removeShortcutLoop k segs callback scope).1).bindings e).count v =
      (k.bindings e).count v -
        (if v = ⟨callback, scope⟩ then segs.count e else 0) := by
  induction segs generalizing k with
  | nil => simp [Keyboard.removeShortcutLoop]
  | cons s rest ih =>
    simp only [Keyboard.removeShortcutLoop]
    rw [ih, bindings_removeShortcutSeg]
    by_cases he : e = s <;>
      by_cases hv : v = (⟨callback, scope⟩ : Listener) <;>
        simp [he, hv, List.count_erase, List.count_cons] <;> omega

theorem count_bindings_addShortcut (k : Keyboard) (s : Str) (callback : Nat)
    (scope : Option Nat) (e : Str) (v : Listener) :
    ((k.addShortcut s callback scope).bindings e).count v =
      (k.bindings e).count v +
        (if v = ⟨callback, scope⟩ then (splitOnPipe s).count e else 0) :=
  count_bindings_addShortcutLoop (splitOnPipe s) k callback scope e v

theorem count_bindings_removeShortcut (k : Keyboard) (s : Str) (callback : Nat)
    (scope : Option Nat) (e : Str) (v : Listener) :
    ((k.removeShortcut s callback scope).bindings e).count v =
      (k.bindings e).count v -
        (if v = ⟨callback, scope⟩ then (splitOnPipe s).count e else 0) :=
  count_bindings_removeShortcutLoop (splitOnPipe s) k callback scope e v

/-! Invariant I1 is preserved by every shortcut operation. -/

theorem keyboardInv_initial : KeyboardInv Keyboard.initial := by
  intro d
  simp [Keyboard.initial]

theorem keyboardInv_addShortcutSeg {k : Keyboard} (h : KeyboardInv k) (s : Str)
    (callback : Nat) (scope : Option Nat) :
    KeyboardInv (k.addShortcutSeg s callback scope).1 := by
  intro d
  rw [hostRegs_addShortcutSeg, bindings_addShortcutSeg]
  by_cases hd : d = s
  · subst hd
    by_cases hb : k.bindings d = []
    · simp [hb]
    · simp [hb, (h d).mpr hb]
  · simp only [hd, false_and, if_false, if_neg hd]
    exact h d

theorem keyboardInv_removeShortcutSeg {k : Keyboard} (h : KeyboardInv k)
    (s : Str) (callback : Nat) (scope : Option Nat) :
    KeyboardInv (k.removeShortcutSeg s callback scope).1 := by
  intro d
  rw [hostRegs_removeShortcutSeg, bindings_removeShortcutSeg]
  by_cases hd : d = s
  · subst hd
    by_cases hb : (k.bindings d).erase ⟨callback, scope⟩ = []
    · simp [hb]
    · have borig : k.bindings d ≠ [] := by
        intro h0
        rw [h0] at hb
        simp at hb
      simp [hb, (h d).mpr borig]
  · simp only [hd, false_and, if_false, if_neg hd]
    exact h d

theorem keyboardInv_addShortcutLoop {k : Keyboard} (h : KeyboardInv k)
    (segs : List Str) (callback : Nat) (scope : Option Nat) :
    KeyboardInv (Keyboard.addShortcutLoop k segs callback scope).1 := by
  induction segs generalizing k with
  | nil => exact h
  | cons s rest ih =>
    exact ih (keyboardInv_addShortcutSeg h s callback scope)

theorem keyboardInv_removeShortcutLoop {k : Keyboard} (h : KeyboardInv k)
    (segs : List Str) (callback : Nat) (scope : Option Nat) :
    KeyboardInv (Keyboard.removeShortcutLoop k segs callback scope).1 := by
  induction segs generalizing k with
  | nil => exact h
  | cons s rest ih =>
    exact ih (keyboardInv_removeShortcutSeg h s callback scope)

theorem keyboardInv_addShortcut {k : Keyboard} (h : KeyboardInv k) (s : Str)
    (callback : Nat) (scope : Option Nat) :
    KeyboardInv (k.addShortcut s callback scope) :=
  keyboardInv_addShortcutLoop h (splitOnPipe s) callback scope

theorem keyboardInv_removeShortcut {k : Keyboard} (h : KeyboardInv k) (s : Str)
    (callback : Nat) (scope : Option Nat) :
    KeyboardInv (k.removeShortcut s callback scope) :=
  keyboardInv_removeShortcutLoop h (splitOnPipe s) callback scope

theorem keyboardInv_applyOp {k : Keyboard} (h : KeyboardInv k)
    (op : KeyboardOp) : KeyboardInv (k.applyOp op) := by
  cases op with
  | add s callback scope => exact keyboardInv_addShortcut h s callback scope
  | remove s callback scope => exact keyboardInv_removeShortcut h s callback scope

theorem keyboardInv_foldl {k : Keyboard} (h : KeyboardInv k)
    (ops : List KeyboardOp) : KeyboardInv (ops.foldl Keyboard.applyOp k) := by
  induction ops generalizing k with
  | nil => exact h
  | cons op rest ih => exact ih (keyboardInv_applyOp h op)

theorem keyboardInv_run (ops : List KeyboardOp) : KeyboardInv (Keyboard.run ops) :=
  keyboardInv_foldl keyboardInv_initial ops

/-- C1: for every descriptor and every sequence of addShortcut/removeShortcut
calls on a shortcut registry, the descriptor has an active host-level
key-capture registration if and only if its listener set is non-empty
(Invariant I1); in particular the registration is created by the add that
inserts the first listener and torn down by the remove that empties the set. -/
theorem claim_C1_host_registration_iff_listeners (ops : List KeyboardOp)
    (d : Str) :
    (Keyboard.run ops).hostRegs d = true ↔ (Keyboard.run ops).bindings d ≠ [] :=
  keyboardInv_run ops d

/-! Fan-out lemmas and the event-delivery claims. -/

theorem fanOut_fst (throws : Nat → Bool) (l : List Listener) :
    (fanOut throws l).1 = l := by
  induction l with
  | nil => rfl
  | cons a rest ih => simp [fanOut, ih]

theorem fanOut_snd (throws : Nat → Bool) (l : List Listener) :
    (fanOut throws l).2 = l.filter (fun x => throws x.callback) := by
  induction l with
  | nil => rfl
  | cons a rest ih =>
    by_cases h : throws a.callback = true <;> simp [fanOut, ih, h]

theorem invoked_keyPressed (k : Keyboard) (d : Str) (throws : Nat → Bool) :
    (k.keyPressed d throws).2.1 = k.bindings d := by
  simp [Keyboard.keyPressed, Keyboard.emitEvent, fanOut_fst]

/-- C7: for every physical key event delivered by the host with identifier
D, the registry emits exactly one event, named D, and every listener triple
bound to D is invoked exactly once for that event, in registration order. -/
theorem claim_C7_one_event_per_key_press (k : Keyboard) (d : Str)
    (throws : Nat → Bool) :
    (k.keyPressed d throws).1 = [d] ∧ (k.keyPressed d throws).2.1 = k.bindings d := by
  exact ⟨rfl, invoked_keyPressed k d throws⟩

/-- C6: when a descriptor with listener sequence L1, L2, L3 fires and L2's
callback throws, L1 and L3 are still invoked (delivery is [L1, L2, L3] in
full) and L2's exception is caught and recorded. -/
theorem claim_C6_throwing_listener_does_not_abort_fanout (k : Keyboard)
    (d : Str) (throws : Nat → Bool) (l1 l2 l3 : Listener)
    (h : k.bindings d = [l1, l2, l3]) (ht : throws l2.callback = true) :
    (k.keyPressed d throws).2.1 = [l1, l2, l3] ∧
      l2 ∈ (k.keyPressed d throws).2.2 := by
  constructor
  · rw [invoked_keyPressed, h]
  · show l2 ∈ (fanOut throws (k.bindings d)).2
    rw [fanOut_snd, h]
    simp [ht]

/-- C6 witness: a concrete registry firing a three-listener descriptor whose
middle listener throws. -/
theorem claim_C6_witness :
    ((⟨fun _ => [⟨1, none⟩, ⟨2, none⟩, ⟨3, none⟩], fun _ => true⟩ :
        Keyboard).keyPressed [] (fun n => n == 2)).2.1 =
        [⟨1, none⟩, ⟨2, none⟩, ⟨3, none⟩] ∧
      (⟨2, none⟩ : Listener) ∈
        ((⟨fun _ => [⟨1, none⟩, ⟨2, none⟩, ⟨3, none⟩], fun _ => true⟩ :
          Keyboard).keyPressed [] (fun n => n == 2)).2.2 :=
  claim_C6_throwing_listener_does_not_abort_fanout _ [] (fun n => n == 2)
    ⟨1, none⟩ ⟨2, none⟩ ⟨3, none⟩ rfl rfl

theorem addShortcut_no_pipe {s : Str} (h : '|' ∉ s) (k : Keyboard)
    (callback : Nat) (scope : Option Nat) :
    k.addShortcut s callback scope = (k.addShortcutSeg s callback scope).1 := by
  show (Keyboard.addShortcutLoop k (splitOnPipe s) callback scope).1 = _
  rw [splitOnPipe_no_pipe h]
  rfl

theorem removeShortcut_no_pipe {s : Str} (h : '|' ∉ s) (k : Keyboard)
    (callback : Nat) (scope : Option Nat) :
    k.removeShortcut s callback scope =
      (k.removeShortcutSeg s callback scope).1 := by
  show (Keyboard.removeShortcutLoop k (splitOnPipe s) callback scope).1 = _
  rw [splitOnPipe_no_pipe h]
  rfl

/-- C8: adding an identical (descriptor, callback, scope) triple a second
time raises no error, stores a duplicate entry after the first, and firing
the descriptor invokes the callback once per stored entry. -/
theorem claim_C8_duplicate_add_both_fire (k : Keyboard) (s : Str)
    (callback : Nat) (scope : Option Nat) (throws : Nat → Bool)
    (h : '|' ∉ s) :
    ((k.addShortcut s callback scope).addShortcut s callback scope).bindings s =
        k.bindings s ++ [⟨callback, scope⟩, ⟨callback, scope⟩] ∧
      (((k.addShortcut s callback scope).addShortcut s callback
          scope).keyPressed s throws).2.1 =
        k.bindings s ++ [⟨callback, scope⟩, ⟨callback, scope⟩] := by
  have hb : ((k.addShortcut s callback scope).addShortcut s callback
      scope).bindings s =
      k.bindings s ++ [⟨callback, scope⟩, ⟨callback, scope⟩] := by
    rw [addShortcut_no_pipe h, addShortcut_no_pipe h,
      bindings_addShortcutSeg, bindings_addShortcutSeg]
    simp
  exact ⟨hb, by rw [invoked_keyPressed, hb]⟩

/-- C8 witness: duplicate registration of a concrete shortcut on a fresh
registry stores two entries and both fire. -/
theorem claim_C8_witness :
    ((Keyboard.initial.addShortcut ['g'] 1 none).addShortcut ['g'] 1
        none).bindings ['g'] =
        Keyboard.initial.bindings ['g'] ++ [⟨1, none⟩, ⟨1, none⟩] ∧
      (((Keyboard.initial.addShortcut ['g'] 1 none).addShortcut ['g'] 1
          none).keyPressed ['g'] (fun _ => false)).2.1 =
        Keyboard.initial.bindings ['g'] ++ [⟨1, none⟩, ⟨1, none⟩] :=
  claim_C8_duplicate_add_both_fire Keyboard.initial ['g'] 1 none
    (fun _ => false) (by decide)

/-! The compound-descriptor batch claim. -/

theorem count_eq_one_of_nodup_mem {l : List Str} {a : Str} (h : l.Nodup)
    (ha : a ∈ l) : l.count a = 1 := by
  induction l with
  | nil => cases ha
  | cons b rest ih =>
    have hb : b ∉ rest := (List.nodup_cons.mp h).1
    have hrest : rest.Nodup := (List.nodup_cons.mp h).2
    rcases List.mem_cons.mp ha with h1 | h1
    · subst h1
      have : a ∉ rest := hb
      rw [List.count_cons]
      simp [List.count_eq_zero.mpr this]
    · have hne : b ≠ a := fun he => hb (he ▸ h1)
      rw [List.count_cons]
      simp [ih hrest h1, hne]

theorem addShortcutLoop_eq_foldl {segs : List Str} (h : ∀ x ∈ segs, '|' ∉ x)
    (k : Keyboard) (callback : Nat) (scope : Option Nat) :
    (Keyboard.addShortcutLoop k segs callback scope).1 =
      segs.foldl (fun k2 x => k2.addShortcut x callback scope) k := by
  induction segs generalizing k with
  | nil => rfl
  | cons s rest ih =>
    have hs : '|' ∉ s := h s (List.mem_cons_self s rest)
    have hrest : ∀ x ∈ rest, '|' ∉ x :=
      fun x hx => h x (List.mem_cons_of_mem s hx)
    show (Keyboard.addShortcutLoop (k.addShortcutSeg s callback scope).1 rest
        callback scope).1 = _
    rw [ih hrest, List.foldl_cons, addShortcut_no_pipe hs]

/-- C2: registering a compound descriptor joined by the pipe separator
leaves the registry in the same state as registering each individual
descriptor separately with the same callback and scope, in left-to-right
order; firing any one of the individual descriptors invokes the callback
once. -/
theorem claim_C2_compound_equals_separate_adds (k : Keyboard) (callback : Nat)
    (scope : Option Nat) (throws : Nat → Bool) (ds : List Str) (d : Str)
    (h1 : ds ≠ []) (h2 : ∀ x ∈ ds, '|' ∉ x) (h3 : ds.Nodup) (h4 : d ∈ ds)
    (h5 : (⟨callback, scope⟩ : Listener) ∉ k.bindings d) :
    k.addShortcut (joinPipe ds) callback scope =
        ds.foldl (fun k2 x => k2.addShortcut x callback scope) k ∧
      (((k.addShortcut (joinPipe ds) callback scope).keyPressed d
          throws).2.1).count ⟨callback, scope⟩ = 1 := by
  have hsplit : splitOnPipe (joinPipe ds) = ds := splitOnPipe_joinPipe h1 h2
  constructor
  · show (Keyboard.addShortcutLoop k (splitOnPipe (joinPipe ds)) callback
        scope).1 = _
    rw [hsplit, addShortcutLoop_eq_foldl h2]
  · rw [invoked_keyPressed, count_bindings_addShortcut, hsplit]
    rw [List.count_eq_zero.mpr h5]
    simpa using count_eq_one_of_nodup_mem h3 h4

/-- C2 witness: registering the compound of two concrete single-key
descriptors on a fresh registry, then firing the first. -/
theorem claim_C2_witness :
    Keyboard.initial.addShortcut (joinPipe [['g'], ['h']]) 1 none =
        [['g'], ['h']].foldl (fun k2 x => k2.addShortcut x 1 none)
          Keyboard.initial ∧
      (((Keyboard.initial.addShortcut (joinPipe [['g'], ['h']]) 1
          none).keyPressed ['g'] (fun _ => false)).2.1).count ⟨1, none⟩ = 1 :=
  claim_C2_compound_equals_separate_adds Keyboard.initial 1 none
    (fun _ => false) [['g'], ['h']] ['g'] (by decide) (by decide) (by decide)
    (by decide) (by intro hmem; simp [Keyboard.initial] at hmem)

/-! The scope-disposal claim. -/

theorem addedCount_cons (t : Str × Nat × Option Nat)
    (ts : List (Str × Nat × Option Nat)) (e : Str) (v : Listener) :
    addedCount (t :: ts) e v =
      (if v = ⟨t.2.1, t.2.2⟩ then (splitOnPipe t.1).count e else 0) +
        addedCount ts e v := by
  simp [addedCount]

theorem runAdds_fst (ts : List (Str × Nat × Option Nat)) (k : Keyboard)
    (sc0 : KeyboardScope) :
    (KeyboardScope.runAdds (k, sc0) ts).1 =
      ts.foldl (fun k2 t => k2.addShortcut t.1 t.2.1 t.2.2) k := by
  induction ts generalizing k sc0 with
  | nil => rfl
  | cons t ts ih =>
    show (KeyboardScope.runAdds
        (k.addShortcut t.1 t.2.1 t.2.2, ⟨sc0.listeners ++ [t]⟩) ts).1 = _
    rw [ih]
    rfl

theorem runAdds_snd (ts : List (Str × Nat × Option Nat)) (k : Keyboard)
    (sc0 : KeyboardScope) :
    (KeyboardScope.runAdds (k, sc0) ts).2 = ⟨sc0.listeners ++ ts⟩ := by
  induction ts generalizing k sc0 with
  | nil => show sc0 = ⟨sc0.listeners ++ []⟩; simp
  | cons t ts ih =>
    show (KeyboardScope.runAdds
        (k.addShortcut t.1 t.2.1 t.2.2, ⟨sc0.listeners ++ [t]⟩) ts).2 = _
    rw [ih]
    simp

theorem count_bindings_foldl_adds (ts : List (Str × Nat × Option Nat))
    (k : Keyboard) (e : Str) (v : Listener) :
    ((ts.foldl (fun k2 t => k2.addShortcut t.1 t.2.1 t.2.2) k).bindings
        e).count v =
      (k.bindings e).count v + addedCount ts e v := by
  induction ts generalizing k with
  | nil => simp [addedCount]
  | cons t ts ih =>
    rw [List.foldl_cons, ih, count_bindings_addShortcut, addedCount_cons]
    omega

theorem count_bindings_disposeInternal (ts : List (Str × Nat × Option Nat))
    (k : Keyboard) (e : Str) (v : Listener) :
    ((KeyboardScope.disposeInternal (k, ⟨ts⟩)).bindings e).count v =
      (k.bindings e).count v - addedCount ts e v := by
  induction ts generalizing k with
  | nil => simp [KeyboardScope.disposeInternal, addedCount]
  | cons t ts ih =>
    show ((KeyboardScope.disposeInternal
        (k.removeShortcut t.1 t.2.1 t.2.2, ⟨ts⟩)).bindings e).count v = _
    rw [ih, count_bindings_removeShortcut, addedCount_cons]
    omega

/-- C3: disposing a scope removes from the registry exactly the
(descriptor, callback, scope) triples the scope recorded via its own
addShortcut calls — every listener count per descriptor returns to its value
before the scope's adds, so listeners not recorded by the scope (including
other listeners on the same descriptors) are untouched — and disposing a
scope that never added a shortcut performs no registry mutation at all. -/
theorem claim_C3_scope_dispose_removes_exactly_recorded (k : Keyboard)
    (ts : List (Str × Nat × Option Nat)) (d : Str) (v : Listener) :
    ((KeyboardScope.disposeInternal
        (KeyboardScope.runAdds (k, KeyboardScope.initial) ts)).bindings
          d).count v =
        (k.bindings d).count v ∧
      KeyboardScope.disposeInternal (k, KeyboardScope.initial) = k := by
  constructor
  · have h2 : (KeyboardScope.runAdds (k, KeyboardScope.initial) ts).2 =
        ⟨ts⟩ := by
      rw [runAdds_snd]
      simp [KeyboardScope.initial]
    have hpair : KeyboardScope.runAdds (k, KeyboardScope.initial) ts =
        ((KeyboardScope.runAdds (k, KeyboardScope.initial) ts).1, ⟨ts⟩) := by
      rw [← h2]
    rw [hpair, count_bindings_disposeInternal, runAdds_fst,
      count_bindings_foldl_adds]
    omega
  · rfl

/-! The absent-removal claim. -/

theorem removeListener_of_not_mem {k : Keyboard} {s : Str} {callback : Nat}
    {scope : Option Nat}
    (h : (⟨callback, scope⟩ : Listener) ∉ k.bindings s) :
    k.removeListener s callback scope = k := by
  unfold Keyboard.removeListener
  rw [List.erase_of_not_mem h, Function.update_eq_self]

theorem unregisterShortcut_of_not_reg {k : Keyboard} {s : Str}
    (h : k.hostRegs s = false) : k.unregisterShortcut s = k := by
  unfold Keyboard.unregisterShortcut
  rw [← h, Function.update_eq_self]

theorem removeShortcutSeg_bindings_of_not_mem {k : Keyboard} {s : Str}
    {callback : Nat} {scope : Option Nat}
    (h : (⟨callback, scope⟩ : Listener) ∉ k.bindings s) :
    ((k.removeShortcutSeg s callback scope).1).bindings = k.bindings := by
  unfold Keyboard.removeShortcutSeg
  rw [removeListener_of_not_mem h]
  by_cases hl : k.hasListeners s = true
  · simp [hl]
  · simp [hl]
    rfl

theorem removeShortcutSeg_eq_of_not_mem {k : Keyboard} {s : Str}
    {callback : Nat} {scope : Option Nat}
    (h : (⟨callback, scope⟩ : Listener) ∉ k.bindings s)
    (hinv : KeyboardInv k) :
    (k.removeShortcutSeg s callback scope).1 = k := by
  unfold Keyboard.removeShortcutSeg
  rw [removeListener_of_not_mem h]
  by_cases hl : k.hasListeners s = true
  · simp [hl]
  · have hemp : k.bindings s = [] := by
      by_contra h2
      exact hl ((hasListeners_iff k s).mpr h2)
    have hreg : k.hostRegs s = false := by
      rcases Bool.eq_false_or_eq_true (k.hostRegs s) with h3 | h3
      · exact absurd hemp (by simpa using (hinv s).mp h3)
      · exact h3
    simp [hl]
    exact unregisterShortcut_of_not_reg hreg

theorem removeShortcutLoop_bindings_of_not_mem (segs : List Str)
    {k : Keyboard} {callback : Nat} {scope : Option Nat}
    (h : ∀ x ∈ segs, (⟨callback, scope⟩ : Listener) ∉ k.bindings x) :
    ((Keyboard.removeShortcutLoop k segs callback scope).1).bindings =
      k.bindings := by
  induction segs generalizing k with
  | nil => rfl
  | cons s rest ih =>
    have hs := h s (List.mem_cons_self s rest)
    have hb := removeShortcutSeg_bindings_of_not_mem hs
    show ((Keyboard.removeShortcutLoop (k.removeShortcutSeg s callback
        scope).1 rest callback scope).1).bindings = _
    rw [ih (fun x hx => by
      rw [hb]
      exact h x (List.mem_cons_of_mem s hx)), hb]

theorem removeShortcutLoop_eq_of_not_mem (segs : List Str) {k : Keyboard}
    {callback : Nat} {scope : Option Nat}
    (h : ∀ x ∈ segs, (⟨callback, scope⟩ : Listener) ∉ k.bindings x)
    (hinv : KeyboardInv k) :
    (Keyboard.removeShortcutLoop k segs callback scope).1 = k := by
  induction segs generalizing k with
  | nil => rfl
  | cons s rest ih =>
    have hs := h s (List.mem_cons_self s rest)
    have hseg := removeShortcutSeg_eq_of_not_mem hs hinv
    show (Keyboard.removeShortcutLoop (k.removeShortcutSeg s callback
        scope).1 rest callback scope).1 = _
    rw [hseg]
    exact ih (fun x hx => h x (List.mem_cons_of_mem s hx)) hinv

/-- C4: calling removeShortcut with a (descriptor, callback, scope) triple
that is not present raises no error and leaves every listener set unchanged;
on a well-formed registry (Invariant I1) the whole registry state is
unchanged, so removing the same shortcut twice is harmless and affects no
other listener. -/
theorem claim_C4_remove_absent_is_noop (k : Keyboard) (s : Str)
    (callback : Nat) (scope : Option Nat)
    (h : ∀ x ∈ splitOnPipe s, (⟨callback, scope⟩ : Listener) ∉ k.bindings x) :
    (∀ e, (k.removeShortcut s callback scope).bindings e = k.bindings e) ∧
      (KeyboardInv k → k.removeShortcut s callback scope = k) := by
  constructor
  · intro e
    show ((Keyboard.removeShortcutLoop k (splitOnPipe s) callback
        scope).1).bindings e = _
    rw [removeShortcutLoop_bindings_of_not_mem (splitOnPipe s) h]
  · intro hinv
    exact removeShortcutLoop_eq_of_not_mem (splitOnPipe s) h hinv

/-- C4 witness: removing a never-added shortcut from a fresh registry leaves
it exactly as it was. -/
theorem claim_C4_witness :
    (Keyboard.initial.removeShortcut ['g'] 1 none).bindings ['g'] =
        Keyboard.initial.bindings ['g'] ∧
      Keyboard.initial.removeShortcut ['g'] 1 none = Keyboard.initial :=
  ⟨(claim_C4_remove_absent_is_noop Keyboard.initial ['g'] 1 none
      (by intro x hx; simp [Keyboard.initial])).1 ['g'],
    (claim_C4_remove_absent_is_noop Keyboard.initial ['g'] 1 none
      (by intro x hx; simp [Keyboard.initial])).2 keyboardInv_initial⟩

/-! The unconditional-unregister claim. -/

theorem calls_removeShortcutSeg (k : Keyboard) (s : Str) (callback : Nat)
    (scope : Option Nat) :
    (k.removeShortcutSeg s callback scope).2 =
      if (k.bindings s).erase ⟨callback, scope⟩ = [] then
        [HostCall.unregister s]
      else [] := by
  unfold Keyboard.removeShortcutSeg
  have hb : (k.removeListener s callback scope).bindings s =
      (k.bindings s).erase ⟨callback, scope⟩ := by
    rw [bindings_removeListener]
    simp
  by_cases hemp : (k.bindings s).erase ⟨callback, scope⟩ = []
  · have hl : ¬(k.removeListener s callback scope).hasListeners s = true := by
      rw [hasListeners_iff, hb]
      exact fun hne => hne hemp
    simp [hl, hemp]
  · have hl : (k.removeListener s callback scope).hasListeners s = true := by
      rw [hasListeners_iff, hb]
      exact hemp
    simp [hl, hemp]

theorem bindings_removeShortcutLoop_not_mem (segs : List Str) {k : Keyboard}
    {callback : Nat} {scope : Option Nat} {d : Str} (h : d ∉ segs) :
    ((Keyboard.removeShortcutLoop k segs callback scope).1).bindings d =
      k.bindings d := by
  induction segs generalizing k with
  | nil => rfl
  | cons s rest ih =>
    have hds : d ≠ s := fun he => h (he ▸ List.mem_cons_self s rest)
    have hdr : d ∉ rest := fun hr => h (List.mem_cons_of_mem s hr)
    show ((Keyboard.removeShortcutLoop (k.removeShortcutSeg s callback
        scope).1 rest callback scope).1).bindings d = _
    rw [ih hdr, bindings_removeShortcutSeg, if_neg hds]

theorem unregister_mem_removeShortcutLoop (segs : List Str) {k : Keyboard}
    (callback : Nat) (scope : Option Nat) (d : Str) (h2 : d ∈ segs)
    (h3 : ((Keyboard.removeShortcutLoop k segs callback scope).1).bindings
      d = []) :
    HostCall.unregister d ∈
      (Keyboard.removeShortcutLoop k segs callback scope).2 := by
  induction segs generalizing k with
  | nil => cases h2
  | cons s rest ih =>
    simp only [Keyboard.removeShortcutLoop] at h3 ⊢
    by_cases hdr : d ∈ rest
    · exact List.mem_append_right _ (ih hdr h3)
    · have hd : d = s := (List.mem_cons.mp h2).resolve_right hdr
      subst hd
      have hrest : ((Keyboard.removeShortcutLoop (k.removeShortcutSeg d
          callback scope).1 rest callback scope).1).bindings d =
          ((k.removeShortcutSeg d callback scope).1).bindings d :=
        bindings_removeShortcutLoop_not_mem rest hdr
      have hse : ((k.removeShortcutSeg d callback scope).1).bindings d =
          (k.bindings d).erase ⟨callback, scope⟩ := by
        rw [bindings_removeShortcutSeg]
        simp
      have hemp : (k.bindings d).erase ⟨callback, scope⟩ = [] := by
        rw [← hse, ← hrest]
        exact h3
      apply List.mem_append_left
      rw [calls_removeShortcutSeg, if_pos hemp]
      simp

/-- C10: whenever a removeShortcut call leaves a descriptor's listener set
empty — including when the descriptor never had any listener or host
registration — the host unregisterShortcut call for that descriptor is
issued; for a single-segment descriptor the issued host calls are exactly
determined by post-removal emptiness, with no dependence on the host
registration state. -/
theorem claim_C10_unconditional_unregister (k : Keyboard) (s : Str)
    (callback : Nat) (scope : Option Nat) (d : Str)
    (h2 : d ∈ splitOnPipe s)
    (h3 : (k.removeShortcut s callback scope).bindings d = []) :
    HostCall.unregister d ∈ (k.removeShortcutLog s callback scope).2 ∧
      ('|' ∉ s → (k.removeShortcutLog s callback scope).2 =
        if (k.bindings s).erase ⟨callback, scope⟩ = [] then
          [HostCall.unregister s]
        else []) := by
  constructor
  · exact unregister_mem_removeShortcutLoop (splitOnPipe s) callback scope d
      h2 h3
  · intro hp
    show (Keyboard.removeShortcutLoop k (splitOnPipe s) callback scope).2 = _
    rw [splitOnPipe_no_pipe hp]
    simp only [Keyboard.removeShortcutLoop]
    rw [List.append_nil, calls_removeShortcutSeg]

/-- C10 witness: removing a shortcut that was never added, from a registry
with no listeners and no host registration at all, still issues the host
unregister call. -/
theorem claim_C10_witness :
    HostCall.unregister ['x'] ∈
        (Keyboard.initial.removeShortcutLog ['x'] 1 none).2 ∧
      (Keyboard.initial.removeShortcutLog ['x'] 1 none).2 =
        if (Keyboard.initial.bindings ['x']).erase ⟨1, none⟩ = [] then
          [HostCall.unregister ['x']]
        else [] :=
  ⟨(claim_C10_unconditional_unregister Keyboard.initial ['x'] 1 none ['x']
      (by decide) rfl).1,
    (claim_C10_unconditional_unregister Keyboard.initial ['x'] 1 none ['x']
      (by decide) rfl).2 (by decide)⟩

/-! The no-validation claim. -/

theorem calls_addShortcutLoop_fresh (segs : List Str) {k : Keyboard}
    (callback : Nat) (scope : Option Nat)
    (h1 : ∀ x ∈ segs, k.bindings x = []) (h2 : segs.Nodup) :
    (Keyboard.addShortcutLoop k segs callback scope).2 =
      segs.map HostCall.register := by
  induction segs generalizing k with
  | nil => rfl
  | cons s rest ih =>
    have hs : k.bindings s = [] := h1 s (List.mem_cons_self s rest)
    have hne : ¬k.hasListeners s = true := by
      rw [hasListeners_iff]
      exact fun hn => hn hs
    have hcalls : (k.addShortcutSeg s callback scope).2 =
        [HostCall.register s] := by
      unfold Keyboard.addShortcutSeg
      rw [if_neg hne]
    have hsrest : s ∉ rest := (List.nodup_cons.mp h2).1
    have hfresh : ∀ x ∈ rest,
        ((k.addShortcutSeg s callback scope).1).bindings x = [] := by
      intro x hx
      have hxs : x ≠ s := fun he => hsrest (he ▸ hx)
      rw [bindings_addShortcutSeg, if_neg hxs]
      exact h1 x (List.mem_cons_of_mem s hx)
    simp only [Keyboard.addShortcutLoop]
    rw [hcalls, ih hfresh (List.nodup_cons.mp h2).2]
    simp

theorem addShortcutSegE_ok (k : Keyboard) (s : Str) (callback : Nat)
    (scope : Option Nat) :
    Keyboard.addShortcutSegE (fun _ => false) k s callback scope =
      .ok (k.addShortcutSeg s callback scope).1 := by
  unfold Keyboard.addShortcutSegE Keyboard.addShortcutSeg
    Keyboard.registerShortcutE
  by_cases hl : k.hasListeners s = true <;> simp [hl]

theorem addShortcutLoopE_ok (segs : List Str) (k : Keyboard) (callback : Nat)
    (scope : Option Nat) :
    Keyboard.addShortcutLoopE (fun _ => false) k segs callback scope =
      .ok (Keyboard.addShortcutLoop k segs callback scope).1 := by
  induction segs generalizing k with
  | nil => rfl
  | cons s rest ih =>
    simp only [Keyboard.addShortcutLoopE, Keyboard.addShortcutLoop]
    rw [addShortcutSegE_ok]
    exact ih (k.addShortcutSeg s callback scope).1

theorem addShortcutE_error_first (k : Keyboard) (s : Str) (callback : Nat)
    (scope : Option Nat) (malformed : Str → Bool) (x : Str) (rest : List Str)
    (h3 : splitOnPipe s = x :: rest) (hb : k.bindings x = [])
    (h4 : malformed x = true) :
    Keyboard.addShortcutE malformed k s callback scope = .error x := by
  unfold Keyboard.addShortcutE
  rw [h3]
  have hne : ¬k.hasListeners x = true := by
    rw [hasListeners_iff]
    exact fun hn => hn hb
  simp only [Keyboard.addShortcutLoopE, Keyboard.addShortcutSegE,
    Keyboard.registerShortcutE]
  simp [hne, h4]

/-- C9: addShortcut validates nothing: on a registry where the split
segments are fresh, every segment obtained by splitting on the pipe —
including empty or malformed ones — is passed verbatim to the host register
call, one call per distinct segment in order; when the host raises no
error the fallible run agrees with the plain one, and a descriptor-format
error raised by the host on the first segment propagates to the caller
unchanged. -/
theorem claim_C9_no_validation_verbatim_and_propagation (k : Keyboard)
    (s : Str) (callback : Nat) (scope : Option Nat) (malformed : Str → Bool)
    (x : Str) (rest : List Str)
    (h1 : ∀ y ∈ splitOnPipe s, k.bindings y = [])
    (h2 : (splitOnPipe s).Nodup) (h3 : splitOnPipe s = x :: rest)
    (h4 : malformed x = true) :
    (k.addShortcutLog s callback scope).2 =
        (splitOnPipe s).map HostCall.register ∧
      Keyboard.addShortcutE (fun _ => false) k s callback scope =
        .ok (k.addShortcut s callback scope) ∧
      Keyboard.addShortcutE malformed k s callback scope = .error x := by
  refine ⟨?_, ?_, ?_⟩
  · exact calls_addShortcutLoop_fresh (splitOnPipe s) callback scope h1 h2
  · exact addShortcutLoopE_ok (splitOnPipe s) k callback scope
  · have hx : x ∈ splitOnPipe s := by
      rw [h3]
      exact List.mem_cons_self x rest
    exact addShortcutE_error_first k s callback scope malformed x rest h3
      (h1 x hx) h4

/-- C9 witness: the compound descriptor with an empty trailing segment, on a
fresh registry, against a host that rejects the first segment. -/
theorem claim_C9_witness :
    (Keyboard.initial.addShortcutLog ['a', '|'] 1 none).2 =
        (splitOnPipe ['a', '|']).map HostCall.register ∧
      Keyboard.addShortcutE (fun _ => false) Keyboard.initial ['a', '|'] 1
          none =
        .ok (Keyboard.initial.addShortcut ['a', '|'] 1 none) ∧
      Keyboard.addShortcutE (fun y => y == ['a']) Keyboard.initial
          ['a', '|'] 1 none =
        .error ['a'] :=
  claim_C9_no_validation_verbatim_and_propagation Keyboard.initial
    ['a', '|'] 1 none (fun y => y == ['a']) ['a'] [[]]
    (by intro y hy; rfl) (by decide) (by decide) (by decide)

/-! The per-window cache claim. -/

theorem assocFind_append_self {l : List (Nat × Nat)} {w : Nat} (i : Nat)
    (h : assocFind l w = none) : assocFind (l ++ [(w, i)]) w = some i := by
  induction l with
  | nil => simp [assocFind]
  | cons p rest ih =>
    by_cases hp : p.1 = w
    · simp [assocFind, hp] at h
    · simp only [assocFind, hp, if_false, List.cons_append] at h ⊢
      simp [hp]
      exact ih h

theorem assocFind_append_ne {l : List (Nat × Nat)} {w a : Nat} (b : Nat)
    (h : w ≠ a) : assocFind (l ++ [(a, b)]) w = assocFind l w := by
  induction l with
  | nil =>
    simp only [List.nil_append, assocFind]
    simp only [ite_eq_right_iff]
    intro he
    exact absurd he.symm h
  | cons p rest ih =>
    by_cases hp : p.1 = w <;> simp [assocFind, hp, ih]

theorem mem_of_assocFind_some {l : List (Nat × Nat)} {w i : Nat}
    (h : assocFind l w = some i) : (w, i) ∈ l := by
  induction l with
  | nil => simp [assocFind] at h
  | cons p rest ih =>
    by_cases hp : p.1 = w
    · simp [assocFind, hp] at h
      have hpq : p = (w, i) := Prod.ext hp h
      rw [← hpq]
      exact List.mem_cons_self p rest
    · simp [assocFind, hp] at h
      exact List.mem_cons_of_mem p (ih h)

theorem not_mem_keys_of_assocFind_none {l : List (Nat × Nat)} {w : Nat}
    (h : assocFind l w = none) : w ∉ l.map Prod.fst := by
  induction l with
  | nil => simp
  | cons p rest ih =>
    by_cases hp : p.1 = w
    · simp [assocFind, hp] at h
    · simp [assocFind, hp] at h
      simp [ih h]
      exact fun he => hp he.symm

theorem directoryInv_empty : DirectoryInv KeyboardDirectory.empty := by
  refine ⟨?_, ?_, ?_⟩ <;> simp [KeyboardDirectory.empty]

theorem directoryInv_getWindowKeyboard {dir : KeyboardDirectory}
    (h : DirectoryInv dir) (ow : Option Nat) :
    DirectoryInv (getWindowKeyboard dir ow).1 := by
  cases hf : assocFind dir.keyboardInstances (ow.getD globalWindowUid) with
  | some i => simpa [getWindowKeyboard, hf] using h
  | none =>
    simp only [getWindowKeyboard, hf]
    refine ⟨?_, ?_, ?_⟩
    · intro p hp
      rcases List.mem_append.mp hp with hp1 | hp1
      · exact Nat.lt_succ_of_lt (h.1 p hp1)
      · simp at hp1
        rw [hp1]
        exact Nat.lt_succ_self _
    · rw [List.map_append]
      refine List.nodup_append.mpr ⟨h.2.1, by simp, ?_⟩
      intro a ha hb
      simp at hb
      rw [hb] at ha
      exact not_mem_keys_of_assocFind_none hf ha
    · rw [List.map_append]
      refine List.nodup_append.mpr ⟨h.2.2, by simp, ?_⟩
      intro a ha hb
      simp at hb
      rw [hb] at ha
      rcases List.mem_map.mp ha with ⟨p, hp, hp2⟩
      exact absurd (hp2 ▸ h.1 p hp) (Nat.lt_irrefl _)

theorem getWindowKeyboard_idem (dir : KeyboardDirectory) (w : Nat) :
    getWindowKeyboard (getWindowKeyboard dir (some w)).1 (some w) =
      getWindowKeyboard dir (some w) := by
  cases hf : assocFind dir.keyboardInstances w with
  | some i => simp [getWindowKeyboard, hf]
  | none =>
    have h2 : assocFind (dir.keyboardInstances ++ [(w, dir.nextUid)]) w =
        some dir.nextUid := assocFind_append_self dir.nextUid hf
    simp [getWindowKeyboard, hf, h2]

theorem getWindowKeyboard_distinct {dir : KeyboardDirectory}
    (h : DirectoryInv dir) {w1 w2 : Nat} (hw : w1 ≠ w2) :
    (getWindowKeyboard (getWindowKeyboard dir (some w1)).1 (some w2)).2 ≠
      (getWindowKeyboard dir (some w1)).2 := by
  cases hf1 : assocFind dir.keyboardInstances w1 with
  | some i1 =>
    have hm1 : (w1, i1) ∈ dir.keyboardInstances := mem_of_assocFind_some hf1
    cases hf2 : assocFind dir.keyboardInstances w2 with
    | some i2 =>
      have hm2 : (w2, i2) ∈ dir.keyboardInstances := mem_of_assocFind_some hf2
      simp only [getWindowKeyboard, hf1, hf2, Option.getD_some]
      intro he
      have hpair : (w2, i2) = (w1, i1) :=
        List.inj_on_of_nodup_map h.2.2 hm2 hm1 he
      exact hw ((congrArg Prod.fst hpair).symm)
    | none =>
      have hi1 : i1 < dir.nextUid := h.1 (w1, i1) hm1
      simp only [getWindowKeyboard, hf1, hf2, Option.getD_some]
      exact fun he => absurd (he ▸ hi1) (Nat.lt_irrefl _)
  | none =>
    have hkeep : assocFind (dir.keyboardInstances ++ [(w1, dir.nextUid)])
        w2 = assocFind dir.keyboardInstances w2 :=
      assocFind_append_ne dir.nextUid (fun he => hw he.symm)
    cases hf2 : assocFind dir.keyboardInstances w2 with
    | some i2 =>
      have hm2 : (w2, i2) ∈ dir.keyboardInstances := mem_of_assocFind_some hf2
      have hi2 : i2 < dir.nextUid := h.1 (w2, i2) hm2
      simp only [getWindowKeyboard, hf1, Option.getD_some]
      rw [hkeep] at *
      simp only [getWindowKeyboard, hf2]
      simp [hf2, hkeep]
      exact fun he => absurd (he ▸ hi2) (Nat.lt_irrefl _)
    | none =>
      simp only [getWindowKeyboard, hf1, Option.getD_some]
      simp [hkeep, hf2, getWindowKeyboard]

/-- C5: two getWindowKeyboard calls with the same window return the
identical cached registry instance (the first call constructs and caches
it), calls with two distinct windows return distinct instances, a call with
the window argument omitted resolves to the host global window, and the
cache's well-formedness is established at start and preserved by every
call. -/
theorem claim_C5_per_window_registry_cache (dir : KeyboardDirectory)
    (w w1 w2 : Nat) (ow : Option Nat) (h : DirectoryInv dir)
    (hw : w1 ≠ w2) :
    getWindowKeyboard (getWindowKeyboard dir (some w)).1 (some w) =
        getWindowKeyboard dir (some w) ∧
      (getWindowKeyboard (getWindowKeyboard dir (some w1)).1 (some w2)).2 ≠
        (getWindowKeyboard dir (some w1)).2 ∧
      getWindowKeyboard dir none =
        getWindowKeyboard dir (some globalWindowUid) ∧
      DirectoryInv (getWindowKeyboard dir ow).1 ∧
      DirectoryInv KeyboardDirectory.empty :=
  ⟨getWindowKeyboard_idem dir w, getWindowKeyboard_distinct h hw, rfl,
    directoryInv_getWindowKeyboard h ow, directoryInv_empty⟩

/-- C5 witness: the empty cache, the global window, and two concrete
distinct windows. -/
theorem claim_C5_witness :
    getWindowKeyboard (getWindowKeyboard KeyboardDirectory.empty
          (some 5)).1 (some 5) =
        getWindowKeyboard KeyboardDirectory.empty (some 5) ∧
      (getWindowKeyboard (getWindowKeyboard KeyboardDirectory.empty
          (some 0)).1 (some 1)).2 ≠
        (getWindowKeyboard KeyboardDirectory.empty (some 0)).2 ∧
      getWindowKeyboard KeyboardDirectory.empty none =
        getWindowKeyboard KeyboardDirectory.empty (some globalWindowUid) ∧
      DirectoryInv (getWindowKeyboard KeyboardDirectory.empty none).1 ∧
      DirectoryInv KeyboardDirectory.empty :=
  claim_C5_per_window_registry_cache KeyboardDirectory.empty 5 0 1 none
    directoryInv_empty (by decide)

end wtf.events
